import Mathlib

/-!
Verification of the `seed_db.py` database-seeding script.

The script populates a local SQLite database with a fixed catalog of
8 categories, 5 sellers, and 1184 deterministically generated products.
We embed the data model and the `seed` operation as Lean functions over an
explicit store state and prove the documented properties.
-/

namespace SeedDb

/-- A row of the `categories` table:
`id INTEGER PRIMARY KEY AUTOINCREMENT, name TEXT NOT NULL UNIQUE,
description TEXT, createdAt INTEGER`. -/
structure CategoryRow where
  id : Nat
  name : String
  description : String
  createdAt : Int
deriving Repr, DecidableEq

/-- A row of the `sellers` table:
`id INTEGER PRIMARY KEY AUTOINCREMENT, userId INTEGER NOT NULL,
storeName TEXT NOT NULL, description TEXT, whatsappPhone TEXT,
rating REAL DEFAULT 0, totalSales INTEGER DEFAULT 0,
createdAt INTEGER, updatedAt INTEGER`. -/
structure SellerRow where
  id : Nat
  userId : Nat
  storeName : String
  description : String
  whatsappPhone : String
  rating : Rat
  totalSales : Nat
  createdAt : Int
  updatedAt : Int
deriving Repr, DecidableEq

/-- The data of one generated product, mirroring the tuple appended to the
`products` list in the Python loop (everything except the store-assigned id):
`(seller_id, cat_id, name, description, price, imageUrl, stock, source,
createdAt, updatedAt)`. -/
structure ProductData where
  sellerId : Nat
  categoryId : Nat
  name : String
  description : String
  price : String
  imageUrl : String
  stock : Nat
  source : String
  createdAt : Int
  updatedAt : Int
deriving Repr, DecidableEq

/-- A row of the `products` table: the inserted data plus the
store-assigned `id INTEGER PRIMARY KEY AUTOINCREMENT`. -/
structure ProductRow extends ProductData where
  id : Nat
deriving Repr, DecidableEq

/-- The state of the on-disk database: the three tables' rows (in rowid
order) together with each table's `sqlite_sequence` counter, which SQLite
keeps for `AUTOINCREMENT` columns. -/
structure Store where
  categories : List CategoryRow
  catSeq : Nat
  sellers : List SellerRow
  sellerSeq : Nat
  products : List ProductRow
  prodSeq : Nat
deriving Repr, DecidableEq

/-- A freshly created database: all tables empty, sequence counters at 0. -/
def emptyStore : Store := ⟨[], 0, [], 0, [], 0⟩

/-- The fixed `CATEGORIES` list of `(name, description)` pairs. -/
def CATEGORIES : List (String × String) := [
  ("Shoes", "Footwear and sneakers"),
  ("Fashion", "Clothing and apparel"),
  ("Furniture", "Home furniture and decor"),
  ("Electronics", "Electronic devices"),
  ("Accessories", "Fashion accessories"),
  ("Home Decor", "Home decoration items"),
  ("Jewelry", "Jewelry and watches"),
  ("Watches", "Timepieces")]

/-- The fixed `SELLERS` list of
`(user_id, store, description, phone, rating, sales)` tuples. -/
def SELLERS : List (Nat × String × String × String × Rat × Nat) := [
  (1, "Nairobi Streetwear Hub", "Premium streetwear and sneakers", "254712345678", (45 : Rat)/10, 0),
  (1, "Westlands Fashion Co", "Trendy fashion and accessories", "254723456789", (42 : Rat)/10, 0),
  (1, "Gikomba Rare Finds", "Vintage and rare items", "254734567890", (48 : Rat)/10, 0),
  (1, "Kilimani Tech & Home", "Electronics and home items", "254745678901", (4 : Rat), 0),
  (1, "Mombasa Road Furniture", "Quality furniture for homes", "254756789012", (43 : Rat)/10, 0)]

/-- `category_names = [c[0] for c in CATEGORIES]`. -/
def categoryNames : List String := CATEGORIES.map (·.1)

/-- SQLite rowid assignment for an `AUTOINCREMENT` column: the new rowid is
one larger than the maximum of the table's `sqlite_sequence` entry and the
largest rowid present in the table. -/
def nextId (seq : Nat) (ids : List Nat) : Nat :=
  max seq (ids.foldr max 0) + 1

/-- `INSERT OR IGNORE INTO categories (name, description, createdAt)`:
the `UNIQUE` constraint on `name` makes the insert a silent no-op whenever a
row with the same name already exists. -/
def insertCategoryOrIgnore (now : Int) (s : Store) (c : String × String) : Store :=
  if s.categories.any (fun r => r.name == c.1) then s
  else
    let id := nextId s.catSeq (s.categories.map (·.id))
    { s with categories := s.categories ++ [⟨id, c.1, c.2, now⟩], catSeq := id }

/-- The category-seeding loop `for name, desc in CATEGORIES: ...` over an
arbitrary list of `(name, description)` pairs. -/
def insertCategoriesList (now : Int) (cats : List (String × String)) (s : Store) : Store :=
  cats.foldl (insertCategoryOrIgnore now) s

/-- The category-seeding phase of `seed`. -/
def insertCategories (now : Int) (s : Store) : Store :=
  insertCategoriesList now CATEGORIES s

/-- `INSERT OR IGNORE INTO sellers (...)`: the `sellers` table has no
uniqueness constraint besides its auto-assigned primary key, so the
`OR IGNORE` clause never fires and every execution inserts a row. -/
def insertSellerOrIgnore (now : Int) (s : Store)
    (t : Nat × String × String × String × Rat × Nat) : Store :=
  let id := nextId s.sellerSeq (s.sellers.map (·.id))
  { s with
      sellers := s.sellers ++
        [⟨id, t.1, t.2.1, t.2.2.1, t.2.2.2.1, t.2.2.2.2.1, t.2.2.2.2.2, now, now⟩],
      sellerSeq := id }

/-- The seller-seeding loop over an arbitrary list of seller tuples. -/
def insertSellersList (now : Int)
    (sellers : List (Nat × String × String × String × Rat × Nat)) (s : Store) : Store :=
  sellers.foldl (insertSellerOrIgnore now) s

/-- The seller-seeding phase of `seed`. -/
def insertSellers (now : Int) (s : Store) : Store :=
  insertSellersList now SELLERS s

/-- `SELECT id, name FROM categories` followed by
`category_map = {name: id for id, name in cursor.fetchall()}`: rows are
returned in rowid order and a later row overwrites an earlier one on a
duplicate name (names are in fact unique by the table constraint), so the
lookup answers with the last matching row's id.  A missing name raises
`KeyError` in Python, embedded as `none`. -/
def categoryMap (rows : List CategoryRow) (name : String) : Option Nat :=
  ((rows.filter (fun r => r.name == name)).getLast?).map (·.id)

/-- The body of the product-generation loop at index `i`: category name and
id by `i mod 8`, seller id `(i mod 5) + 1`, formatted name, description,
price string, image URL, stock `5 + (i mod 20)`, constant source tag, and
the run's captured timestamp for both `createdAt` and `updatedAt`. -/
def genProduct (cmap : String → Option Nat) (now : Int) (i : Nat) : Option ProductData := do
  let catName ← categoryNames[i % categoryNames.length]?
  let catId ← cmap catName
  some {
    sellerId := i % SELLERS.length + 1
    categoryId := catId
    name := catName ++ " Item " ++ toString (i + 1)
    description := "High-quality " ++ catName ++ " from authentic Kenyan markets. Perfect for your needs."
    price := toString (1000 + i % 50 * 100)
    imageUrl := "https://images.unsplash.com/photo-" ++ toString (1500000000000 + i * 1000000) ++ "?w=500&h=500&fit=crop"
    stock := 5 + i % 20
    source := "nairobi_market"
    createdAt := now
    updatedAt := now }

/-- `products = []; for i in range(n): products.append(...)`: the list of
generated product tuples after `n` loop iterations. -/
def genProducts (cmap : String → Option Nat) (now : Int) : Nat → Option (List ProductData)
  | 0 => some []
  | n + 1 => do
    let ps ← genProducts cmap now n
    let p ← genProduct cmap now n
    some (ps ++ [p])

/-- Insert one product row, assigning the next rowid. -/
def insertProduct (s : Store) (p : ProductData) : Store :=
  let id := nextId s.prodSeq (s.products.map (·.id))
  { s with products := s.products ++ [{ toProductData := p, id := id }], prodSeq := id }

/-- `cursor.executemany("INSERT INTO products (...) VALUES (...)", products)`:
insert every generated row, in order. -/
def insertProducts (s : Store) (ps : List ProductData) : Store :=
  ps.foldl insertProduct s

/-- The whole `seed()` run over a store state, with the captured timestamp
`now = int(time.time() * 1000)` as a parameter: create-table statements do
not touch existing rows, then the category phase, the seller phase, the
category-map read-back, the generation of 1184 products, and the batch
insert.  `none` models an uncaught `KeyError` from the category map. -/
def seed (now : Int) (s : Store) : Option Store := do
  let s1 := insertCategories now s
  let s2 := insertSellers now s1
  let cmap := categoryMap s2.categories
  let ps ← genProducts cmap now 1184
  some (insertProducts s2 ps)

/-- `n` successive runs of `seed` with the given captured timestamps. -/
def seedN : List Int → Store → Option Store
  | [], s => some s
  | t :: rest, s => do
    let s' ← seed t s
    seedN rest s'

/-- The data of the product row stored at (0-based) position `i`. -/
def productAt (s : Store) (i : Nat) : Option ProductData :=
  (s.products[i]?).map (·.toProductData)

/-- The one-seller insert written out as an explicit record. -/
def sellerRowOf (now : Int) (id : Nat)
    (t : Nat × String × String × String × Rat × Nat) : SellerRow :=
  ⟨id, t.1, t.2.1, t.2.2.1, t.2.2.2.1, t.2.2.2.2.1, t.2.2.2.2.2, now, now⟩

/-- The record produced by the loop body at index `i`, given that the
category id of the selected name resolves to `cid`. -/
def genProductData (nm : String) (cid : Nat) (now : Int) (i : Nat) : ProductData where
  sellerId := i % SELLERS.length + 1
  categoryId := cid
  name := nm ++ " Item " ++ toString (i + 1)
  description := "High-quality " ++ nm ++ " from authentic Kenyan markets. Perfect for your needs."
  price := toString (1000 + i % 50 * 100)
  imageUrl := "https://images.unsplash.com/photo-" ++ toString (1500000000000 + i * 1000000) ++ "?w=500&h=500&fit=crop"
  stock := 5 + i % 20
  source := "nairobi_market"
  createdAt := now
  updatedAt := now

/-- The seller table's rowids are `1 .. length` and the sequence counter
agrees with the row count: true of every store reachable by runs of the
seeder, because `AUTOINCREMENT` hands out consecutive ids under an
insert-only workload. -/
def sellersWF (s : Store) : Prop :=
  s.sellerSeq = s.sellers.length ∧
  ∀ i, (h : i < s.sellers.length) → (s.sellers[i] : SellerRow).id = i + 1

/-- Referential integrity: every product row points at an existing category
row and an existing seller row. -/
def refsOK (s : Store) : Prop :=
  ∀ p ∈ s.products,
    (∃ c ∈ s.categories, c.id = p.categoryId) ∧
    ∃ r ∈ s.sellers, r.id = p.sellerId

/-! ### The connection's transaction state

Python's `sqlite3` module in its default isolation level opens one implicit
transaction before the first DML statement and keeps it open until
`conn.commit()`: every `INSERT` of the run is visible to the connection but
reaches the disk only at the single commit on the last line of `seed`.  A
crash discards the open transaction. -/

/-- A live connection: the rows durably on disk, and the connection's view
including the uncommitted implicit transaction. -/
structure Conn where
  durable : Store
  session : Store
deriving Repr, DecidableEq

/-- `sqlite3.connect(db_path)`: no transaction open yet. -/
def connOpen (s : Store) : Conn := ⟨s, s⟩

/-- The category `INSERT OR IGNORE` loop: buffered in the implicit
transaction, nothing written to disk. -/
def afterCategoryPhase (now : Int) (c : Conn) : Conn :=
  ⟨c.durable, insertCategories now c.session⟩

/-- The seller `INSERT OR IGNORE` loop: buffered in the implicit
transaction, nothing written to disk. -/
def afterSellerPhase (now : Int) (c : Conn) : Conn :=
  ⟨c.durable, insertSellers now c.session⟩

/-- The product generation plus `executemany` batch insert: still buffered
in the implicit transaction. -/
def afterProductPhase (now : Int) (c : Conn) : Option Conn := do
  let ps ← genProducts (categoryMap c.session.categories) now 1184
  some ⟨c.durable, insertProducts c.session ps⟩

/-- `conn.commit()`: the open transaction is flushed to disk. -/
def commitConn (c : Conn) : Conn := ⟨c.session, c.session⟩

/-- The rows on disk if the process crashes at this point: the open
transaction is rolled back. -/
def crash (c : Conn) : Store := c.durable

/-! ### Frame and shape lemmas for the category phase -/

theorem insertCategoryOrIgnore_frame (now : Int) (s : Store) (c : String × String) :
    (insertCategoryOrIgnore now s c).sellers = s.sellers ∧
    (insertCategoryOrIgnore now s c).products = s.products ∧
    (insertCategoryOrIgnore now s c).sellerSeq = s.sellerSeq ∧
    (insertCategoryOrIgnore now s c).prodSeq = s.prodSeq := by
  unfold insertCategoryOrIgnore
  split <;> exact ⟨rfl, rfl, rfl, rfl⟩

theorem insertCategoryOrIgnore_categories (now : Int) (s : Store) (c : String × String) :
    ∃ t, (insertCategoryOrIgnore now s c).categories = s.categories ++ t ∧
      ∀ r ∈ t, r.createdAt = now := by
  unfold insertCategoryOrIgnore
  split
  · exact ⟨[], by simp⟩
  · exact ⟨[⟨nextId s.catSeq (s.categories.map (·.id)), c.1, c.2, now⟩], rfl, by simp⟩

theorem insertCategoryOrIgnore_present_mono (now : Int) (s : Store) (c : String × String)
    (nm : String) (h : (s.categories.any fun r => r.name == nm) = true) :
    ((insertCategoryOrIgnore now s c).categories.any fun r => r.name == nm) = true := by
  obtain ⟨t, ht, -⟩ := insertCategoryOrIgnore_categories now s c
  rw [ht, List.any_append, h, Bool.true_or]

theorem insertCategoryOrIgnore_present_self (now : Int) (s : Store) (c : String × String) :
    ((insertCategoryOrIgnore now s c).categories.any fun r => r.name == c.1) = true := by
  unfold insertCategoryOrIgnore
  split
  · assumption
  · simp

theorem insertCategoriesList_frame (now : Int) (cats : List (String × String)) (s : Store) :
    (insertCategoriesList now cats s).sellers = s.sellers ∧
    (insertCategoriesList now cats s).products = s.products ∧
    (insertCategoriesList now cats s).sellerSeq = s.sellerSeq ∧
    (insertCategoriesList now cats s).prodSeq = s.prodSeq := by
  induction cats generalizing s with
  | nil => exact ⟨rfl, rfl, rfl, rfl⟩
  | cons c cats ih =>
    have h1 := insertCategoryOrIgnore_frame now s c
    have h2 := ih (insertCategoryOrIgnore now s c)
    exact ⟨h2.1.trans h1.1, h2.2.1.trans h1.2.1,
      h2.2.2.1.trans h1.2.2.1, h2.2.2.2.trans h1.2.2.2⟩

theorem insertCategoriesList_categories (now : Int) (cats : List (String × String)) (s : Store) :
    ∃ t, (insertCategoriesList now cats s).categories = s.categories ++ t ∧
      ∀ r ∈ t, r.createdAt = now := by
  induction cats generalizing s with
  | nil => exact ⟨[], by simp [insertCategoriesList], by simp⟩
  | cons c cats ih =>
    obtain ⟨t1, ht1, hns1⟩ := insertCategoryOrIgnore_categories now s c
    obtain ⟨t2, ht2, hns2⟩ := ih (insertCategoryOrIgnore now s c)
    refine ⟨t1 ++ t2, ?_, ?_⟩
    · rw [show insertCategoriesList now (c :: cats) s =
        insertCategoriesList now cats (insertCategoryOrIgnore now s c) from rfl,
        ht2, ht1, List.append_assoc]
    · intro r hr
      rcases List.mem_append.1 hr with h | h
      · exact hns1 r h
      · exact hns2 r h

theorem insertCategoriesList_present (now : Int) (cats : List (String × String)) (s : Store)
    (nm : String)
    (h : (s.categories.any fun r => r.name == nm) = true ∨ nm ∈ cats.map (·.1)) :
    ((insertCategoriesList now cats s).categories.any fun r => r.name == nm) = true := by
  induction cats generalizing s with
  | nil =>
    rcases h with h | h
    · exact h
    · simp at h
  | cons c cats ih =>
    have step : ∀ s' : Store, insertCategoriesList now (c :: cats) s' =
        insertCategoriesList now cats (insertCategoryOrIgnore now s' c) := fun _ => rfl
    rw [step]
    rcases h with h | h
    · exact ih _ (Or.inl (insertCategoryOrIgnore_present_mono now s c nm h))
    · rcases List.mem_map.1 h with ⟨c', hc', hnm⟩
      rcases List.mem_cons.1 hc' with rfl | hc'
      · subst hnm
        exact ih _ (Or.inl (insertCategoryOrIgnore_present_self now s c'))
      · exact ih _ (Or.inr (hnm ▸ List.mem_map_of_mem _ hc'))

theorem insertCategoriesList_skip (now : Int) (cats : List (String × String)) (s : Store)
    (h : ∀ c ∈ cats, (s.categories.any fun r => r.name == c.1) = true) :
    insertCategoriesList now cats s = s := by
  induction cats with
  | nil => rfl
  | cons c cats ih =>
    have hc : insertCategoryOrIgnore now s c = s := by
      unfold insertCategoryOrIgnore
      rw [if_pos (h c (List.mem_cons_self c cats))]
    show insertCategoriesList now cats (insertCategoryOrIgnore now s c) = s
    rw [hc]
    exact ih fun c' hc' => h c' (List.mem_cons_of_mem c hc')

/-! ### Frame and shape lemmas for the seller phase -/

theorem insertSellerOrIgnore_frame (now : Int) (s : Store)
    (t : Nat × String × String × String × Rat × Nat) :
    (insertSellerOrIgnore now s t).categories = s.categories ∧
    (insertSellerOrIgnore now s t).products = s.products ∧
    (insertSellerOrIgnore now s t).catSeq = s.catSeq ∧
    (insertSellerOrIgnore now s t).prodSeq = s.prodSeq :=
  ⟨rfl, rfl, rfl, rfl⟩

theorem insertSellersList_lemma (now : Int)
    (l : List (Nat × String × String × String × Rat × Nat)) (s : Store) :
    ∃ t, (insertSellersList now l s).sellers = s.sellers ++ t ∧
      t.length = l.length ∧
      (∀ r ∈ t, r.createdAt = now ∧ r.updatedAt = now) ∧
      (insertSellersList now l s).categories = s.categories ∧
      (insertSellersList now l s).products = s.products ∧
      (insertSellersList now l s).catSeq = s.catSeq ∧
      (insertSellersList now l s).prodSeq = s.prodSeq := by
  induction l generalizing s with
  | nil => exact ⟨[], by simp [insertSellersList], rfl, by simp, rfl, rfl, rfl, rfl⟩
  | cons x l ih =>
    obtain ⟨t, ht, hlen, hts, hc, hp, hcs, hps⟩ := ih (insertSellerOrIgnore now s x)
    refine ⟨⟨nextId s.sellerSeq (s.sellers.map (·.id)), x.1, x.2.1, x.2.2.1, x.2.2.2.1,
      x.2.2.2.2.1, x.2.2.2.2.2, now, now⟩ :: t, ?_, by simp [hlen], ?_, hc, hp, hcs, hps⟩
    · rw [show insertSellersList now (x :: l) s =
        insertSellersList now l (insertSellerOrIgnore now s x) from rfl, ht]
      simp [insertSellerOrIgnore]
    · intro r hr
      rcases List.mem_cons.1 hr with rfl | hr
      · exact ⟨rfl, rfl⟩
      · exact hts r hr

/-! ### Sequential seller ids -/

theorem foldr_max_le (l : List Nat) (b : Nat) (h : ∀ x ∈ l, x ≤ b) :
    l.foldr max 0 ≤ b := by
  induction l with
  | nil => exact Nat.zero_le b
  | cons x l ih =>
    exact max_le (h x (List.mem_cons_self x l))
      (ih fun y hy => h y (List.mem_cons_of_mem x hy))

theorem sellersWF_empty : sellersWF emptyStore :=
  ⟨rfl, fun i h => absurd h (by simp [emptyStore])⟩

theorem insertSellerOrIgnore_eq (now : Int) (s : Store)
    (t : Nat × String × String × String × Rat × Nat) :
    insertSellerOrIgnore now s t =
      { s with
          sellers := s.sellers ++
            [sellerRowOf now (nextId s.sellerSeq (s.sellers.map (·.id))) t],
          sellerSeq := nextId s.sellerSeq (s.sellers.map (·.id)) } := rfl

theorem insertSellerOrIgnore_wf (now : Int) (s : Store)
    (t : Nat × String × String × String × Rat × Nat) (h : sellersWF s) :
    sellersWF (insertSellerOrIgnore now s t) := by
  obtain ⟨hseq, hids⟩ := h
  have hbound : ∀ x ∈ s.sellers.map (·.id), x ≤ s.sellers.length := by
    intro x hx
    rcases List.mem_map.1 hx with ⟨r, hr, rfl⟩
    rcases List.getElem_of_mem hr with ⟨i, hi, rfl⟩
    rw [hids i hi]
    exact hi
  have hid : nextId s.sellerSeq (s.sellers.map (·.id)) = s.sellers.length + 1 := by
    unfold nextId
    rw [hseq, max_eq_left (foldr_max_le _ _ hbound)]
  rw [insertSellerOrIgnore_eq]
  constructor
  · simpa using hid
  · intro i hi
    simp only [List.length_append, List.length_singleton] at hi
    rcases Nat.lt_or_ge i s.sellers.length with hlt | hge
    · rw [List.getElem_append_left hlt]
      exact hids i hlt
    · have hieq : i = s.sellers.length := Nat.le_antisymm (Nat.lt_succ_iff.1 hi) hge
      subst hieq
      rw [List.getElem_append_right (Nat.le_refl _)]
      simpa [sellerRowOf] using hid

theorem insertSellersList_wf (now : Int)
    (l : List (Nat × String × String × String × Rat × Nat)) (s : Store)
    (h : sellersWF s) : sellersWF (insertSellersList now l s) := by
  induction l generalizing s with
  | nil => exact h
  | cons x l ih =>
    exact ih (insertSellerOrIgnore now s x) (insertSellerOrIgnore_wf now s x h)

/-! ### The product generation loop -/

theorem categoryNames_getElem (i : Nat) :
    ∃ nm, categoryNames[i % categoryNames.length]? = some nm ∧ nm ∈ categoryNames := by
  have hlen : 0 < categoryNames.length := by decide
  have hlt : i % categoryNames.length < categoryNames.length := Nat.mod_lt i hlen
  exact ⟨categoryNames[i % categoryNames.length], List.getElem?_eq_getElem hlt,
    List.getElem_mem hlt⟩

theorem genProduct_eq (cmap : String → Option Nat) (now : Int) (i : Nat)
    (nm : String) (cid : Nat)
    (h1 : categoryNames[i % categoryNames.length]? = some nm)
    (h2 : cmap nm = some cid) :
    genProduct cmap now i = some (genProductData nm cid now i) := by
  unfold genProduct
  rw [h1]
  show cmap nm >>= _ = _
  rw [h2]
  rfl

theorem genProduct_some (cmap : String → Option Nat) (now : Int) (i : Nat)
    (q : ProductData) (h : genProduct cmap now i = some q) :
    ∃ nm cid, categoryNames[i % categoryNames.length]? = some nm ∧
      nm ∈ categoryNames ∧ cmap nm = some cid ∧ q = genProductData nm cid now i := by
  obtain ⟨nm, hnm, hmem⟩ := categoryNames_getElem i
  rcases h2 : cmap nm with _ | cid
  · rw [genProduct, hnm] at h
    simp only [Option.bind_eq_bind, Option.some_bind] at h
    rw [h2] at h
    exact absurd h (by simp)
  · rw [genProduct_eq cmap now i nm cid hnm h2] at h
    exact ⟨nm, cid, hnm, hmem, h2, (Option.some_inj.1 h).symm⟩

theorem genProducts_length (cmap : String → Option Nat) (now : Int) :
    ∀ n ps, genProducts cmap now n = some ps → ps.length = n := by
  intro n
  induction n with
  | zero =>
    intro ps h
    rw [genProducts] at h
    simp_all
  | succ n ih =>
    intro ps h
    rw [genProducts] at h
    rcases h1 : genProducts cmap now n with _ | qs <;> rw [h1] at h
    · exact absurd h (by simp)
    · rcases h2 : genProduct cmap now n with _ | q <;> rw [h2] at h
      · exact absurd h (by simp)
      · simp only [Option.bind_eq_bind, Option.some_bind, Option.some_inj] at h
        subst h
        rw [List.length_append, List.length_singleton, ih qs h1]

theorem genProducts_some (cmap : String → Option Nat) (now : Int)
    (h : ∀ nm ∈ categoryNames, (cmap nm).isSome = true) :
    ∀ n, ∃ ps, genProducts cmap now n = some ps ∧ ps.length = n := by
  intro n
  induction n with
  | zero => exact ⟨[], rfl, rfl⟩
  | succ n ih =>
    obtain ⟨ps, hps, hlen⟩ := ih
    obtain ⟨nm, hnm, hmem⟩ := categoryNames_getElem n
    rcases h2 : cmap nm with _ | cid
    · exact absurd (h nm hmem) (by simp [h2])
    · refine ⟨ps ++ [genProductData nm cid now n], ?_, by simp [hlen]⟩
      rw [genProducts, hps]
      simp only [Option.bind_eq_bind, Option.some_bind]
      rw [genProduct_eq cmap now n nm cid hnm h2]
      simp

theorem genProducts_getElem (cmap : String → Option Nat) (now : Int) :
    ∀ n ps, genProducts cmap now n = some ps →
      ∀ i, i < n → ps[i]? = genProduct cmap now i := by
  intro n
  induction n with
  | zero => exact fun ps _ i hi => absurd hi (Nat.not_lt_zero i)
  | succ n ih =>
    intro ps h i hi
    rw [genProducts] at h
    rcases h1 : genProducts cmap now n with _ | qs <;> rw [h1] at h
    · exact absurd h (by simp)
    · rcases h2 : genProduct cmap now n with _ | q <;> rw [h2] at h
      · exact absurd h (by simp)
      · simp only [Option.bind_eq_bind, Option.some_bind, Option.some_inj] at h
        subst h
        have hq : qs.length = n := genProducts_length cmap now n qs h1
        rcases Nat.lt_or_ge i n with hlt | hge
        · rw [List.getElem?_append_left (by rw [hq]; exact hlt)]
          exact ih qs h1 i hlt
        · have hieq : i = n := Nat.le_antisymm (Nat.lt_succ_iff.1 hi) hge
          subst hieq
          rw [List.getElem?_append_right (by rw [hq]), hq]
          simpa using h2.symm

theorem genProducts_mem (cmap : String → Option Nat) (now : Int) :
    ∀ n ps, genProducts cmap now n = some ps →
      ∀ q ∈ ps, ∃ i, i < n ∧ genProduct cmap now i = some q := by
  intro n
  induction n with
  | zero =>
    intro ps h q hq
    rw [genProducts] at h
    simp_all
  | succ n ih =>
    intro ps h q hq
    rw [genProducts] at h
    rcases h1 : genProducts cmap now n with _ | qs <;> rw [h1] at h
    · exact absurd h (by simp)
    · rcases h2 : genProduct cmap now n with _ | p <;> rw [h2] at h
      · exact absurd h (by simp)
      · simp only [Option.bind_eq_bind, Option.some_bind, Option.some_inj] at h
        subst h
        rcases List.mem_append.1 hq with hmem | hmem
        · obtain ⟨i, hi, hgen⟩ := ih qs h1 q hmem
          exact ⟨i, Nat.lt_succ_of_lt hi, hgen⟩
        · rw [List.mem_singleton.1 hmem]
          exact ⟨n, Nat.lt_succ_self n, h2⟩

/-! ### The batch insert -/

theorem insertProducts_lemma : ∀ (ps : List ProductData) (s : Store),
    ∃ t, (insertProducts s ps).products = s.products ++ t ∧
      t.map (·.toProductData) = ps ∧
      (insertProducts s ps).categories = s.categories ∧
      (insertProducts s ps).sellers = s.sellers ∧
      (insertProducts s ps).catSeq = s.catSeq ∧
      (insertProducts s ps).sellerSeq = s.sellerSeq := by
  intro ps
  induction ps with
  | nil => exact fun s => ⟨[], by simp [insertProducts], rfl, rfl, rfl, rfl, rfl⟩
  | cons p ps ih =>
    intro s
    obtain ⟨t, ht, hmap, hc, hs, hcs, hss⟩ := ih (insertProduct s p)
    refine ⟨{ toProductData := p, id := nextId s.prodSeq (s.products.map (·.id)) } :: t,
      ?_, ?_, hc, hs, hcs, hss⟩
    · rw [show insertProducts s (p :: ps) = insertProducts (insertProduct s p) ps from rfl,
        ht]
      simp [insertProduct]
    · simp [hmap]

theorem insertProducts_length (ps : List ProductData) (s : Store) :
    (insertProducts s ps).products.length = s.products.length + ps.length := by
  obtain ⟨t, ht, hmap, -⟩ := insertProducts_lemma ps s
  rw [ht, List.length_append]
  have := congrArg List.length hmap
  rw [List.length_map] at this
  rw [this]

/-! ### The category-map read-back -/

theorem categoryMap_isSome (rows : List CategoryRow) (nm : String)
    (h : (rows.any fun r => r.name == nm) = true) :
    ∃ cid, categoryMap rows nm = some cid := by
  obtain ⟨r, hr, hname⟩ := List.any_eq_true.1 h
  have hmem : r ∈ rows.filter (fun r => r.name == nm) := List.mem_filter.2 ⟨hr, hname⟩
  have hne : rows.filter (fun r => r.name == nm) ≠ [] := List.ne_nil_of_mem hmem
  obtain ⟨c, hc⟩ := Option.isSome_iff_exists.1 (List.getLast?_isSome.2 hne)
  exact ⟨c.id, by rw [categoryMap, hc]; rfl⟩

theorem categoryMap_mem (rows : List CategoryRow) (nm : String) (cid : Nat)
    (h : categoryMap rows nm = some cid) :
    ∃ c ∈ rows, c.id = cid ∧ c.name = nm := by
  rw [categoryMap] at h
  rcases hlast : (rows.filter (fun r => r.name == nm)).getLast? with _ | c
  · rw [hlast] at h
    exact absurd h (by simp)
  · rw [hlast] at h
    obtain ⟨hne, hgl⟩ := List.mem_getLast?_eq_getLast (l := rows.filter fun r => r.name == nm)
      (Option.mem_def.2 hlast)
    have hcf : c ∈ rows.filter (fun r => r.name == nm) := hgl ▸ List.getLast_mem hne
    obtain ⟨hcr, hcn⟩ := List.mem_filter.1 hcf
    exact ⟨c, hcr, Option.some_inj.1 h, by simpa using hcn⟩

/-! ### The full run -/

theorem seed_eq (now : Int) (s : Store) :
    ∃ ps, genProducts (categoryMap (insertSellers now (insertCategories now s)).categories)
        now 1184 = some ps ∧ ps.length = 1184 ∧
      seed now s = some (insertProducts (insertSellers now (insertCategories now s)) ps) := by
  have hcat : (insertSellers now (insertCategories now s)).categories =
      (insertCategories now s).categories :=
    (insertSellersList_lemma now SELLERS (insertCategories now s)).choose_spec.2.2.2.1
  have hpres : ∀ nm ∈ categoryNames,
      ((insertSellers now (insertCategories now s)).categories.any
        fun r => r.name == nm) = true := by
    intro nm hnm
    rw [hcat]
    exact insertCategoriesList_present now CATEGORIES s nm (Or.inr hnm)
  have hsome : ∀ nm ∈ categoryNames,
      ((categoryMap (insertSellers now (insertCategories now s)).categories) nm).isSome
        = true := by
    intro nm hnm
    obtain ⟨cid, hcid⟩ := categoryMap_isSome _ nm (hpres nm hnm)
    rw [hcid]
    rfl
  obtain ⟨ps, hps, hlen⟩ := genProducts_some _ now hsome 1184
  refine ⟨ps, hps, hlen, ?_⟩
  show ((genProducts (categoryMap (insertSellers now (insertCategories now s)).categories)
      now 1184).bind fun ps =>
        some (insertProducts (insertSellers now (insertCategories now s)) ps)) = _
  rw [hps]
  rfl

theorem seed_products_length (now : Int) (s : Store) (s' : Store)
    (h : seed now s = some s') : s'.products.length = s.products.length + 1184 := by
  obtain ⟨ps, hps, hlen, hseed⟩ := seed_eq now s
  rw [h] at hseed
  have hs' : s' = insertProducts (insertSellers now (insertCategories now s)) ps :=
    Option.some_inj.1 hseed
  subst hs'
  rw [insertProducts_length, hlen]
  have h1 := (insertSellersList_lemma now SELLERS (insertCategories now s)).choose_spec.2.2.2.2.1
  have h2 := (insertCategoriesList_frame now CATEGORIES s).2.1
  rw [insertSellers, h1, insertCategories, h2]

theorem seed_shape (now : Int) (s : Store) :
    ∃ s' tc ts tp, seed now s = some s' ∧
      s'.categories = s.categories ++ tc ∧ (∀ r ∈ tc, r.createdAt = now) ∧
      s'.sellers = s.sellers ++ ts ∧ ts.length = 5 ∧
      (∀ r ∈ ts, r.createdAt = now ∧ r.updatedAt = now) ∧
      s'.products = s.products ++ tp ∧ tp.length = 1184 ∧
      ∀ r ∈ tp, ∃ i, i < 1184 ∧
        genProduct (categoryMap (insertSellers now (insertCategories now s)).categories)
          now i = some r.toProductData := by
  obtain ⟨ps, hps, hlen, hseed⟩ := seed_eq now s
  obtain ⟨tp, htp, htpmap, hpc, hpsell, -, -⟩ :=
    insertProducts_lemma ps (insertSellers now (insertCategories now s))
  obtain ⟨tc, htc, htcnow⟩ := insertCategoriesList_categories now CATEGORIES s
  obtain ⟨ts, hts, htslen, htsnow, hscat, hsprod, -, -⟩ :=
    insertSellersList_lemma now SELLERS (insertCategories now s)
  have hcsell := (insertCategoriesList_frame now CATEGORIES s).1
  have hcprod := (insertCategoriesList_frame now CATEGORIES s).2.1
  refine ⟨insertProducts (insertSellers now (insertCategories now s)) ps, tc, ts, tp,
    hseed, ?_, htcnow, ?_, by rw [htslen]; rfl, htsnow, ?_, ?_, ?_⟩
  · rw [hpc, insertSellers, hscat, insertCategories, htc]
  · rw [hpsell, insertSellers, hts, insertCategories, hcsell]
  · rw [htp, insertSellers, hsprod, insertCategories, hcprod]
  · have := congrArg List.length htpmap
    rw [List.length_map, hlen] at this
    exact this
  · intro r hr
    have hmem : r.toProductData ∈ ps := htpmap ▸ List.mem_map_of_mem (·.toProductData) hr
    exact genProducts_mem _ now 1184 ps hps r.toProductData hmem

/-- Every run of `seed` succeeds: the category phase guarantees that every
category name resolves in the read-back map. -/
theorem seed_total (now : Int) (s : Store) : ∃ s', seed now s = some s' := by
  obtain ⟨s', _, _, _, hseed, -⟩ := seed_shape now s
  exact ⟨s', hseed⟩

theorem phase2_categories (now : Int) (s : Store) :
    (insertSellers now (insertCategories now s)).categories =
      (insertCategories now s).categories := by
  obtain ⟨ts, -, -, -, hscat, -, -, -⟩ :=
    insertSellersList_lemma now SELLERS (insertCategories now s)
  rw [insertSellers, hscat]

theorem seed_categories_eq (now : Int) (s s' : Store) (h : seed now s = some s') :
    s'.categories = (insertSellers now (insertCategories now s)).categories := by
  obtain ⟨ps, hps, hlen, hseed⟩ := seed_eq now s
  rw [h] at hseed
  obtain ⟨tp, -, -, hpc, -, -, -⟩ :=
    insertProducts_lemma ps (insertSellers now (insertCategories now s))
  rw [(Option.some_inj.1 hseed), hpc]

theorem seed_sellers_length (now : Int) (s s' : Store) (h : seed now s = some s') :
    s'.sellers.length = s.sellers.length + 5 := by
  obtain ⟨s'', tc, ts, tp, hseed, -, -, hsell, htslen, -⟩ := seed_shape now s
  rw [h] at hseed
  obtain rfl : s' = s'' := Option.some_inj.1 hseed
  rw [hsell, List.length_append, htslen]

theorem seed_productAt (now : Int) (s : Store) (i : Nat) (hi : i < 1184) :
    ∃ s' q, seed now s = some s' ∧
      productAt s' (s.products.length + i) = some q ∧
      genProduct (categoryMap (insertSellers now (insertCategories now s)).categories)
        now i = some q := by
  obtain ⟨ps, hps, hlen, hseed⟩ := seed_eq now s
  obtain ⟨tp, htp, htpmap, -⟩ :=
    insertProducts_lemma ps (insertSellers now (insertCategories now s))
  have h2p : (insertSellers now (insertCategories now s)).products = s.products := by
    obtain ⟨ts, -, -, -, -, hsprod, -, -⟩ :=
      insertSellersList_lemma now SELLERS (insertCategories now s)
    rw [insertSellers, hsprod, insertCategories,
      (insertCategoriesList_frame now CATEGORIES s).2.1]
  have hgen := genProducts_getElem _ now 1184 ps hps i hi
  have hips : i < ps.length := hlen ▸ hi
  have hsome : ps[i]? = some ps[i] := List.getElem?_eq_getElem hips
  refine ⟨insertProducts (insertSellers now (insertCategories now s)) ps, ps[i],
    hseed, ?_, by rw [← hgen, hsome]⟩
  rw [productAt, htp, h2p, List.getElem?_append_right (Nat.le_add_right _ i),
    Nat.add_sub_cancel_left]
  have : tp[i]? = some (tp.get ⟨i, by
      have := congrArg List.length htpmap
      rw [List.length_map] at this
      rw [this]
      exact hips⟩) :=
    List.getElem?_eq_getElem _
  rw [this]
  have hdata : (tp.map (·.toProductData))[i]? = some ps[i] := by
    rw [htpmap]
    exact hsome
  rw [List.getElem?_map] at hdata
  rw [this] at hdata
  simpa using hdata

theorem seedN_total : ∀ (nows : List Int) (s : Store), ∃ sn, seedN nows s = some sn := by
  intro nows
  induction nows with
  | nil => exact fun s => ⟨s, rfl⟩
  | cons t rest ih =>
    intro s
    obtain ⟨s', hs'⟩ := seed_total t s
    obtain ⟨sn, hsn⟩ := ih s'
    refine ⟨sn, ?_⟩
    show ((seed t s).bind fun s' => seedN rest s') = some sn
    rw [hs', Option.some_bind]
    exact hsn

theorem seedN_sellers_length : ∀ (nows : List Int) (s sn : Store),
    seedN nows s = some sn → sn.sellers.length = s.sellers.length + 5 * nows.length := by
  intro nows
  induction nows with
  | nil =>
    intro s sn h
    have : s = sn := Option.some_inj.1 h
    simp [← this]
  | cons t rest ih =>
    intro s sn h
    replace h : ((seed t s).bind fun s' => seedN rest s') = some sn := h
    rcases h1 : seed t s with _ | s' <;> rw [h1] at h
    · exact absurd h (by simp)
    · rw [Option.some_bind] at h
      rw [ih s' sn h, seed_sellers_length t s s' h1, List.length_cons]
      ring

theorem sellersWF_congr (a b : Store) (h1 : b.sellers = a.sellers)
    (h2 : b.sellerSeq = a.sellerSeq) (h : sellersWF a) : sellersWF b := by
  unfold sellersWF at h ⊢
  rw [h1, h2]
  exact h

theorem seed_wf (now : Int) (s s' : Store) (h : seed now s = some s')
    (hwf : sellersWF s) : sellersWF s' := by
  obtain ⟨ps, hps, hlen, hseed⟩ := seed_eq now s
  rw [h] at hseed
  obtain ⟨tp, -, -, -, hpsell, -, hpss⟩ :=
    insertProducts_lemma ps (insertSellers now (insertCategories now s))
  have hs1 : sellersWF (insertCategories now s) := by
    refine sellersWF_congr s (insertCategories now s) ?_ ?_ hwf
    · exact (insertCategoriesList_frame now CATEGORIES s).1
    · exact (insertCategoriesList_frame now CATEGORIES s).2.2.1
  have hs2 : sellersWF (insertSellers now (insertCategories now s)) :=
    insertSellersList_wf now SELLERS (insertCategories now s) hs1
  rw [← Option.some_inj.1 hseed] at hpsell hpss
  exact sellersWF_congr _ _ hpsell hpss hs2

theorem refsOK_empty : refsOK emptyStore := by
  intro p hp
  exact absurd hp (by simp [emptyStore])

theorem seed_refsOK (now : Int) (s s' : Store) (h : seed now s = some s')
    (hwf : sellersWF s) (hrefs : refsOK s) : refsOK s' := by
  obtain ⟨s'', tc, ts, tp, hseed, hcat, -, hsell, htslen, -, hprod, -, hgen⟩ :=
    seed_shape now s
  rw [h] at hseed
  obtain rfl : s' = s'' := Option.some_inj.1 hseed
  have hwf' : sellersWF s' := seed_wf now s s' h hwf
  have hlen' : s'.sellers.length = s.sellers.length + 5 := seed_sellers_length now s s' h
  intro p hp
  rw [hprod] at hp
  rcases List.mem_append.1 hp with hold | hnew
  · obtain ⟨⟨c, hc, hcid⟩, ⟨r, hrmem, hrid⟩⟩ := hrefs p hold
    exact ⟨⟨c, hcat ▸ List.mem_append_left tc hc, hcid⟩,
      ⟨r, hsell ▸ List.mem_append_left ts hrmem, hrid⟩⟩
  · obtain ⟨i, hi, hgenp⟩ := hgen p hnew
    obtain ⟨nm, cid, hnm, hmem, hcmap, hdata⟩ :=
      genProduct_some _ now i p.toProductData hgenp
    constructor
    · obtain ⟨c, hcmem, hcid, -⟩ := categoryMap_mem _ nm cid hcmap
      refine ⟨c, ?_, ?_⟩
      · rw [← seed_categories_eq now s s' h] at hcmem
        exact hcmem
      · rw [hcid]
        show cid = p.toProductData.categoryId
        rw [hdata]
        rfl
    · have hsid : p.sellerId = i % 5 + 1 := by
        show p.toProductData.sellerId = i % 5 + 1
        rw [hdata]
        rfl
      have hjlt : i % 5 < s'.sellers.length := by
        have : i % 5 < 5 := Nat.mod_lt i (by decide)
        omega
      refine ⟨s'.sellers[i % 5], List.getElem_mem hjlt, ?_⟩
      rw [hwf'.2 (i % 5) hjlt, hsid]

theorem seedN_wf_refs : ∀ (nows : List Int) (s sn : Store),
    seedN nows s = some sn → sellersWF s → refsOK s → sellersWF sn ∧ refsOK sn := by
  intro nows
  induction nows with
  | nil =>
    intro s sn h hwf hrefs
    obtain rfl : s = sn := Option.some_inj.1 h
    exact ⟨hwf, hrefs⟩
  | cons t rest ih =>
    intro s sn h hwf hrefs
    replace h : ((seed t s).bind fun s' => seedN rest s') = some sn := h
    rcases h1 : seed t s with _ | s' <;> rw [h1] at h
    · exact absurd h (by simp)
    · rw [Option.some_bind] at h
      exact ih s' sn h (seed_wf t s s' h1 hwf) (seed_refsOK t s s' h1 hwf hrefs)

theorem connOpen_mk (s : Store) : connOpen s = Conn.mk s s := rfl

theorem afterCategoryPhase_mk (now : Int) (a b : Store) :
    afterCategoryPhase now (Conn.mk a b) = Conn.mk a (insertCategories now b) := rfl

theorem afterSellerPhase_mk (now : Int) (a b : Store) :
    afterSellerPhase now (Conn.mk a b) = Conn.mk a (insertSellers now b) := rfl

theorem crash_mk (a b : Store) : crash (Conn.mk a b) = a := rfl

theorem commitConn_mk (a b : Store) : commitConn (Conn.mk a b) = Conn.mk b b := rfl

theorem afterProductPhase_eq (now : Int) (c : Conn) :
    afterProductPhase now c =
      (genProducts (categoryMap c.session.categories) now 1184).map
        fun ps => ⟨c.durable, insertProducts c.session ps⟩ := by
  rw [afterProductPhase]
  rcases genProducts (categoryMap c.session.categories) now 1184 with _ | ps <;> rfl

theorem afterProductPhase_mk (now : Int) (a b : Store) :
    afterProductPhase now (Conn.mk a b) =
      (genProducts (categoryMap b.categories) now 1184).map
        fun ps => Conn.mk a (insertProducts b ps) :=
  afterProductPhase_eq now (Conn.mk a b)

/-! ### The claims -/

/-- C1: Running `seed` against an empty store produces exactly 8 category
rows, 5 seller rows and 1184 product rows; running it a second time without
clearing tables leaves the product table with exactly 2368 rows. -/
theorem c1_seed_counts (t1 t2 : Int) :
    ∃ s1 s2, seed t1 emptyStore = some s1 ∧
      s1.categories.length = 8 ∧ s1.sellers.length = 5 ∧ s1.products.length = 1184 ∧
      seed t2 s1 = some s2 ∧ s2.products.length = 2368 := by
  obtain ⟨s1, hseed⟩ := seed_total t1 emptyStore
  obtain ⟨s2, hseed2⟩ := seed_total t2 s1
  have hp : s1.products.length = 1184 := by
    rw [seed_products_length t1 emptyStore s1 hseed]
    rfl
  refine ⟨s1, s2, hseed, ?_, ?_, hp, hseed2, ?_⟩
  · rw [seed_categories_eq t1 emptyStore s1 hseed, phase2_categories]
    simp [insertCategories, insertCategoriesList, insertCategoryOrIgnore, nextId,
      CATEGORIES, emptyStore]
  · rw [seed_sellers_length t1 emptyStore s1 hseed]
    rfl
  · rw [seed_products_length t2 s1 s2 hseed2, hp]

/-- C2: For every product index `i < 1184`, the generated row's category is
the category at position `i mod 8` of the fixed category list (in its given
order, resolved by name through the read-back map), its seller id equals
`(i mod 5) + 1`, and its name is the category name followed by
`" Item "` followed by `i + 1`. -/
theorem c2_product_assignment (now : Int) (s : Store) (i : Nat) (hi : i < 1184) :
    ∃ s' q nm, seed now s = some s' ∧
      productAt s' (s.products.length + i) = some q ∧
      categoryNames[i % 8]? = some nm ∧
      q.name = nm ++ " Item " ++ toString (i + 1) ∧
      q.sellerId = i % 5 + 1 ∧
      ∃ c ∈ s'.categories, c.id = q.categoryId ∧ c.name = nm := by
  obtain ⟨s', q, hseed, hat, hgen⟩ := seed_productAt now s i hi
  obtain ⟨nm, cid, hnm, hmem, hcmap, hq⟩ := genProduct_some _ now i q hgen
  subst hq
  obtain ⟨c, hcmem, hcid, hcname⟩ := categoryMap_mem _ nm cid hcmap
  refine ⟨s', _, nm, hseed, hat, ?_, rfl, rfl, c, ?_, hcid, hcname⟩
  · have hlen8 : categoryNames.length = 8 := rfl
    rw [← hlen8]
    exact hnm
  · rw [seed_categories_eq now s s' hseed]
    exact hcmem

/-- Witness for C2 at `now = 0`, the empty store and index 0. -/
theorem c2_product_assignment_witness :
    ∃ s' q nm, seed 0 emptyStore = some s' ∧
      productAt s' (emptyStore.products.length + 0) = some q ∧
      categoryNames[0 % 8]? = some nm ∧
      q.name = nm ++ " Item " ++ toString (0 + 1) ∧
      q.sellerId = 0 % 5 + 1 ∧
      ∃ c ∈ s'.categories, c.id = q.categoryId ∧ c.name = nm :=
  c2_product_assignment 0 emptyStore 0 (by decide)

/-- C3: For every product index `i < 1184` the generated price is the
decimal string of `1000 + (i mod 50) * 100`, hence lies in
`{1000, 1100, …, 5900}` (between 1000 and 5900 and divisible by 100), and
the generated stock is `5 + (i mod 20)`, hence lies in `{5, …, 24}`. -/
theorem c3_price_stock (now : Int) (s : Store) (i : Nat) (hi : i < 1184) :
    ∃ s' q, seed now s = some s' ∧
      productAt s' (s.products.length + i) = some q ∧
      q.price = toString (1000 + i % 50 * 100) ∧
      1000 ≤ 1000 + i % 50 * 100 ∧ 1000 + i % 50 * 100 ≤ 5900 ∧
      100 ∣ 1000 + i % 50 * 100 ∧
      q.stock = 5 + i % 20 ∧ 5 ≤ q.stock ∧ q.stock ≤ 24 := by
  obtain ⟨s', q, hseed, hat, hgen⟩ := seed_productAt now s i hi
  obtain ⟨nm, cid, hnm, hmem, hcmap, hq⟩ := genProduct_some _ now i q hgen
  subst hq
  have h50 : i % 50 < 50 := Nat.mod_lt i (by decide)
  have h20 : i % 20 < 20 := Nat.mod_lt i (by decide)
  refine ⟨s', _, hseed, hat, rfl, by omega, by omega, ⟨10 + i % 50, by ring⟩,
    rfl, ?_, ?_⟩
  · show 5 ≤ 5 + i % 20
    omega
  · show 5 + i % 20 ≤ 24
    omega

/-- Witness for C3 at `now = 0`, the empty store and index 0. -/
theorem c3_price_stock_witness :
    ∃ s' q, seed 0 emptyStore = some s' ∧
      productAt s' (emptyStore.products.length + 0) = some q ∧
      q.price = toString (1000 + 0 % 50 * 100) ∧
      1000 ≤ 1000 + 0 % 50 * 100 ∧ 1000 + 0 % 50 * 100 ≤ 5900 ∧
      100 ∣ 1000 + 0 % 50 * 100 ∧
      q.stock = 5 + 0 % 20 ∧ 5 ≤ q.stock ∧ q.stock ≤ 24 :=
  c3_price_stock 0 emptyStore 0 (by decide)

/-- C4: Re-running `seed` against a store that already contains the 8 fixed
category names does not change the category count. -/
theorem c4_category_rerun_count (now : Int) (s : Store)
    (h : ∀ nm ∈ categoryNames, (s.categories.any fun r => r.name == nm) = true) :
    ∃ s', seed now s = some s' ∧ s'.categories.length = s.categories.length := by
  obtain ⟨s', hseed⟩ := seed_total now s
  refine ⟨s', hseed, ?_⟩
  rw [seed_categories_eq now s s' hseed, phase2_categories, insertCategories,
    insertCategoriesList_skip now CATEGORIES s
      (fun c hc => h c.1 (List.mem_map_of_mem (·.1) hc))]

/-- Witness for C4: a store already holding the 8 category names. -/
theorem c4_category_rerun_count_witness :
    ∃ s', seed 0 (insertCategories 0 emptyStore) = some s' ∧
      s'.categories.length = (insertCategories 0 emptyStore).categories.length :=
  c4_category_rerun_count 0 (insertCategories 0 emptyStore) (by decide)

/-- C5 as stated is false: the category and seller inserts are buffered in
the connection's single implicit transaction, so a crash between the seller
phase and the product phase persists neither the 8 categories nor the 5
sellers (here at an initially empty store with timestamp 0). -/
theorem c5_counterexample :
    ¬ ((crash (afterSellerPhase 0 (afterCategoryPhase 0
          (connOpen emptyStore)))).categories.length = 8 ∧
        (crash (afterSellerPhase 0 (afterCategoryPhase 0
          (connOpen emptyStore)))).sellers.length = 5 ∧
        (crash (afterSellerPhase 0 (afterCategoryPhase 0
          (connOpen emptyStore)))).products = []) := by
  decide

/-- C5 amended: no insert of the run is committed individually.  A crash
between the seller phase and the product phase leaves the disk exactly as
it was before the run, and the single final commit persists the whole run
(categories, sellers and products) all at once, agreeing with `seed`. -/
theorem c5_single_commit (now : Int) (s : Store) :
    crash (afterSellerPhase now (afterCategoryPhase now (connOpen s))) = s ∧
    ((afterProductPhase now (afterSellerPhase now (afterCategoryPhase now
        (connOpen s)))).map fun c => crash (commitConn c)) = seed now s := by
  obtain ⟨ps, hps, -, hseed⟩ := seed_eq now s
  constructor
  · rw [connOpen_mk, afterCategoryPhase_mk, afterSellerPhase_mk, crash_mk]
  · rw [connOpen_mk, afterCategoryPhase_mk, afterSellerPhase_mk, afterProductPhase_mk,
      hps, hseed, Option.map_some', Option.map_some', commitConn_mk, crash_mk]

/-- C6: after any number of runs from an empty store followed by one more
run, every product row's `categoryId` is the id of a category row present
in the store (the categories do not change between the read-back and the
end of the run) and its `sellerId` is the id of a seller row created in the
same or a prior run. -/
theorem c6_referential_integrity (nows : List Int) (now : Int) :
    ∃ s s', seedN nows emptyStore = some s ∧ seed now s = some s' ∧
      ∀ p ∈ s'.products,
        (∃ c ∈ s'.categories, c.id = p.categoryId) ∧
        ∃ r ∈ s'.sellers, r.id = p.sellerId := by
  obtain ⟨s, hs⟩ := seedN_total nows emptyStore
  obtain ⟨hwf, hrefs⟩ := seedN_wf_refs nows emptyStore s hs sellersWF_empty refsOK_empty
  obtain ⟨s', hs'⟩ := seed_total now s
  exact ⟨s, s', hs, hs', seed_refsOK now s s' hs' hwf hrefs⟩

/-- C7: on a run against an empty store, the product at index 0 has
category `"Shoes"`, seller id 1, name `"Shoes Item 1"`, price `"1000"` and
stock 5; the product at index 1183 has category `"Watches"`, seller id 4,
price `"4300"` and stock 8. -/
theorem c7_concrete_products (now : Int) :
    ∃ s1 p q, seed now emptyStore = some s1 ∧
      productAt s1 0 = some p ∧
      p.name = "Shoes Item 1" ∧ p.sellerId = 1 ∧ p.price = "1000" ∧ p.stock = 5 ∧
      (∃ c ∈ s1.categories, c.id = p.categoryId ∧ c.name = "Shoes") ∧
      productAt s1 1183 = some q ∧
      q.sellerId = 4 ∧ q.price = "4300" ∧ q.stock = 8 ∧
      ∃ c ∈ s1.categories, c.id = q.categoryId ∧ c.name = "Watches" := by
  obtain ⟨s1, p, hseed, hat0, hgen0⟩ := seed_productAt now emptyStore 0 (by decide)
  obtain ⟨s1', q, hseed1, hat1, hgen1⟩ := seed_productAt now emptyStore 1183 (by decide)
  rw [hseed] at hseed1
  obtain rfl : s1 = s1' := Option.some_inj.1 hseed1
  obtain ⟨nm0, cid0, hnm0, -, hcmap0, hp⟩ := genProduct_some _ now 0 p hgen0
  obtain ⟨nm1, cid1, hnm1, -, hcmap1, hq⟩ := genProduct_some _ now 1183 q hgen1
  have enm0 : nm0 = "Shoes" := by
    have hconc : categoryNames[0 % categoryNames.length]? = some "Shoes" := rfl
    exact (Option.some_inj.1 (hconc.symm.trans hnm0)).symm
  have enm1 : nm1 = "Watches" := by
    have hconc : categoryNames[1183 % categoryNames.length]? = some "Watches" := rfl
    exact (Option.some_inj.1 (hconc.symm.trans hnm1)).symm
  subst enm0 enm1 hp hq
  obtain ⟨c0, hc0mem, hc0id, hc0name⟩ := categoryMap_mem _ "Shoes" cid0 hcmap0
  obtain ⟨c1, hc1mem, hc1id, hc1name⟩ := categoryMap_mem _ "Watches" cid1 hcmap1
  have hcats := seed_categories_eq now emptyStore s1 hseed
  rw [← hcats] at hc0mem hc1mem
  exact ⟨s1, _, _, hseed, hat0, rfl, rfl, rfl, rfl,
    ⟨c0, hc0mem, hc0id, hc0name⟩, hat1, rfl, rfl, rfl,
    ⟨c1, hc1mem, hc1id, hc1name⟩⟩

/-- C8: every row inserted by one run carries the run's single captured
timestamp: new categories' `createdAt`, new sellers' `createdAt` and
`updatedAt`, and new products' `createdAt` and `updatedAt` all equal `now`
(so in particular each product's `createdAt` equals its `updatedAt`). -/
theorem c8_uniform_timestamps (now : Int) (s : Store) :
    ∃ s', seed now s = some s' ∧
      (∀ c ∈ s'.categories.drop s.categories.length, c.createdAt = now) ∧
      (∀ r ∈ s'.sellers.drop s.sellers.length, r.createdAt = now ∧ r.updatedAt = now) ∧
      ∀ p ∈ s'.products.drop s.products.length, p.createdAt = now ∧ p.updatedAt = now := by
  obtain ⟨s', tc, ts, tp, hseed, hcat, htcnow, hsell, -, htsnow, hprod, -, hgen⟩ :=
    seed_shape now s
  refine ⟨s', hseed, ?_, ?_, ?_⟩
  · rw [hcat, List.drop_left]
    exact htcnow
  · rw [hsell, List.drop_left]
    exact htsnow
  · rw [hprod, List.drop_left]
    intro p hp
    obtain ⟨i, hi, hgenp⟩ := hgen p hp
    obtain ⟨nm, cid, -, -, -, hdata⟩ := genProduct_some _ now i p.toProductData hgenp
    constructor
    · show p.toProductData.createdAt = now
      rw [hdata]
      rfl
    · show p.toProductData.updatedAt = now
      rw [hdata]
      rfl

/-- C9: `seed` never updates or deletes a row: every pre-existing row of
every table is still present, in place, after a run; the three tables only
grow by appended rows. -/
theorem c9_append_only (now : Int) (s : Store) :
    ∃ s' tc ts tp, seed now s = some s' ∧
      s'.categories = s.categories ++ tc ∧
      s'.sellers = s.sellers ++ ts ∧
      s'.products = s.products ++ tp := by
  obtain ⟨s', tc, ts, tp, hseed, hcat, -, hsell, -, -, hprod, -, -⟩ := seed_shape now s
  exact ⟨s', tc, ts, tp, hseed, hcat, hsell, hprod⟩

/-- C10: every run of `seed` inserts exactly 5 new seller rows regardless
of the store's prior contents (the conflict-ignoring insert never ignores),
and after `n` successive runs from an empty store the seller table holds
exactly `5 * n` rows. -/
theorem c10_sellers_always_insert (now : Int) (s : Store) (nows : List Int) :
    (∃ s', seed now s = some s' ∧ s'.sellers.length = s.sellers.length + 5) ∧
    ∃ sn, seedN nows emptyStore = some sn ∧ sn.sellers.length = 5 * nows.length := by
  constructor
  · obtain ⟨s', hseed⟩ := seed_total now s
    exact ⟨s', hseed, seed_sellers_length now s s' hseed⟩
  · obtain ⟨sn, hsn⟩ := seedN_total nows emptyStore
    refine ⟨sn, hsn, ?_⟩
    have h := seedN_sellers_length nows emptyStore sn hsn
    simpa [emptyStore] using h

end SeedDb
